import Mathlib

/-!
Shallow embedding of the throttling core of `rest_framework/throttling.py`
(repository azamukedenish/tweets2cash) and verification of its
natural-language specification.

Timestamps are modelled as rationals (the Python code uses `time.time()`
floats but performs only exact field arithmetic on them).  The shared
cache is modelled as a total function from keys to histories, with the
default-empty behaviour of `cache.get(key, [])`; the writes performed by
an evaluation are returned explicitly as a list of `(key, history, ttl)`
records so that "no store write" and the TTL of each write are visible
in the result.
-/

/-- The shared cache, as seen through `cache.get(key, [])`: a total map
from keys to (possibly empty) histories. -/
abbrev Store := String → List ℚ

/-- One `cache.set(key, history, ttl)` effect. -/
structure Write where
  key : String
  history : List ℚ
  ttl : Nat
deriving DecidableEq

/-- The store with no keys set. -/
def emptyStore : Store := fun _ => []

/-- Apply a list of `cache.set` effects to a store, in order. -/
def applyWrites (store : Store) (ws : List Write) : Store :=
  ws.foldl (fun st wr => fun k => if k = wr.key then wr.history else st k) store

/-- Models the pruning loop
`while history and history[-1] <= now - duration: history.pop()`:
drop entries from the tail of `history` while the last entry is `≤ cutoff`. -/
def prune (history : List ℚ) (cutoff : ℚ) : List ℚ :=
  (history.reverse.dropWhile (fun t => decide (t ≤ cutoff))).reverse

/-- Split a character list on a separator character, Python-`split` style:
the list of (possibly empty) chunks between separators. -/
def splitChar (sep : Char) : List Char → List (List Char)
  | [] => [[]]
  | c :: rest =>
    let r := splitChar sep rest
    if c = sep then [] :: r
    else
      match r with
      | [] => [[c]]
      | h :: t => (c :: h) :: t

/-- Models Python `s.split(sep)` for a one-character separator. -/
def splitOnChar (sep : Char) (s : String) : List String :=
  (splitChar sep s.data).map (fun l => ⟨l⟩)

/-- Models Python `s.strip()`: remove leading and trailing whitespace. -/
def pyStrip (s : String) : String :=
  ⟨((s.data.dropWhile Char.isWhitespace).reverse.dropWhile Char.isWhitespace).reverse⟩

/-- Parse a non-empty all-digit character list as a natural number. -/
def parseNatChars (l : List Char) : Option Nat :=
  if l ≠ [] ∧ l.all Char.isDigit then
    some (l.foldl (fun a c => a * 10 + (c.toNat - '0'.toNat)) 0)
  else none

/-- Models Python `int(s)` on the decimal strings used by rate specs:
an optional sign followed by digits. -/
def pyToInt (s : String) : Option Int :=
  match s.data with
  | '-' :: rest => (parseNatChars rest).map (fun n => -(n : Int))
  | l => (parseNatChars l).map (fun n => (n : Int))

/-- Models Python `''.join(s.split())`: the string with every whitespace
character removed. -/
def stripAllWs (s : String) : String :=
  ⟨s.data.filter (fun c => !c.isWhitespace)⟩

/-- Models `BaseThrottle.get_ident(request)`.  `xff` is the
`HTTP_X_FORWARDED_FOR` header (`none` when absent), `remoteAddr` is
`REMOTE_ADDR`, `numProxies` is the `NUM_PROXIES` setting.
Python's negative index `addrs[-min(n, len(addrs))]` is written as the
position `len - min n len`; `addrs` is never empty so the default of
`getD` is never used. -/
def bt_get_ident (xff : Option String) (remoteAddr : String) (numProxies : Option Nat) : String :=
  match numProxies with
  | some n =>
    match xff with
    | none => remoteAddr
    | some x =>
      if n = 0 then remoteAddr
      else
        let addrs := splitOnChar ',' x
        pyStrip (addrs.getD (addrs.length - min n addrs.length) "")
  | none =>
    match xff with
    | some x => if x ≠ "" then stripAllWs x else remoteAddr
    | none => remoteAddr

/-- Models `SimpleRateThrottle.cache_format % {...}`:
`'throttle_%(scope)s_%(ident)s'`. -/
def srt_cache_key (scope ident : String) : String :=
  "throttle_" ++ scope ++ "_" ++ ident

/-- Shared body of `SimpleRateThrottle.wait` and `CommonThrottle.wait_time`:
`remaining_duration = duration - (now - history[-1])` when the history is
non-empty, else `duration`. -/
def remainingOf (duration : Nat) (history : List ℚ) (now : ℚ) : ℚ :=
  match history.getLast? with
  | some t => (duration : ℚ) - (now - t)
  | none => (duration : ℚ)

/-- Models `SimpleRateThrottle.allow_request`.  `rate` is the parsed
`(num_requests, duration)` pair (`none` models `self.rate is None`),
`key` models the result of `get_cache_key` (`none` means "do not
throttle").  Returns the decision together with the `cache.set` effects
performed. -/
def srt_allow_request (rate : Option (Int × Nat)) (key : Option String)
    (store : Store) (now : ℚ) : Bool × List Write :=
  match rate with
  | none => (true, [])
  | some (num, duration) =>
    match key with
    | none => (true, [])
    | some k =>
      let history := prune (store k) (now - (duration : ℚ))
      if (history.length : Int) ≥ num then (false, [])
      else (true, [⟨k, now :: history, duration⟩])

/-- Models `SimpleRateThrottle.wait`, as a function of the state
(`self.num_requests`, `self.duration`, `self.history`, `self.now`) left by
`allow_request`. -/
def srt_wait (num : Int) (duration : Nat) (history : List ℚ) (now : ℚ) : Option ℚ :=
  let remaining := remainingOf duration history now
  let available : Int := num - history.length + 1
  if available ≤ 0 then none
  else some (remaining / (available : ℚ))

/-- One single-tier request: run `allow_request` and apply its writes. -/
def srt_request (num : Int) (duration : Nat) (key : String) (store : Store) (now : ℚ) :
    Bool × Store :=
  let r := srt_allow_request (some (num, duration)) (some key) store now
  (r.1, applyWrites store r.2)

/-- A burst of `k` requests at the same key, all at time `now`. Returns
the list of decisions in order together with the final store. -/
def srt_burst (num : Int) (duration : Nat) (key : String) (now : ℚ) :
    Nat → Store → List Bool × Store
  | 0, store => ([], store)
  | k + 1, store =>
    let r := srt_request num duration key store now
    let rest := srt_burst num duration key now k r.2
    (r.1 :: rest.1, rest.2)

/-- A parsed rate, as produced by `CommonThrottle.parse_rate`: the
original rate string (used as the tier name in cache keys), the allowed
number of requests, and the window length in seconds. -/
structure Rate where
  name : String
  num : Int
  duration : Nat
deriving DecidableEq

/-- The exceptions the throttling code can raise. -/
inductive PyError
  | improperlyConfigured (msg : String)
  | valueError
  | keyError
  | indexError
deriving DecidableEq

/-- A value of the `THROTTLE_RATES` table for one scope: Python `None`,
a single rate string, a list of rate strings, or anything else. -/
inductive RatesVal
  | nil
  | str (s : String)
  | lst (l : List String)
  | other
deriving DecidableEq

/-- The identity returned by `CommonThrottle.get_ident`: the integer
`request.user.id` for authenticated requests, else the client address
string from `get_ip(request)`. -/
inductive IdentVal
  | uid (n : Int)
  | addr (s : String)
deriving DecidableEq

/-- One entry of `DEFAULT_THROTTLE_WHITELIST`: an `int` or a `str`
(`isinstance` checks in `is_whitelisted`). -/
inductive WlEntry
  | int (n : Int)
  | str (s : String)
deriving DecidableEq

/-- The settings consumed by `CommonThrottle`: the `THROTTLE_RATES`
table and the `DEFAULT_THROTTLE_WHITELIST`. -/
structure ThrottleConfig where
  rates : String → Option RatesVal
  whitelist : List WlEntry

/-- The request fields consumed by `CommonThrottle`. -/
structure Request where
  isAuthenticated : Bool
  userId : Int
  ip : String
  method : String

/-- Parse one dotted-quad octet: digits only, value at most 255. -/
def parseOctet (s : String) : Option Nat :=
  match parseNatChars s.data with
  | some n => if n ≤ 255 then some n else none
  | none => none

/-- Parse an IPv4 dotted-quad address to its 32-bit value. -/
def parseIPv4 (s : String) : Option Nat :=
  match (splitOnChar '.' s).mapM parseOctet with
  | some [a, b, c, d] => some (((a * 256 + b) * 256 + c) * 256 + d)
  | _ => none

/-- Parse a CIDR string as `netaddr.IPNetwork` does for the forms the
whitelist uses: `"a.b.c.d"` (an implicit `/32`) or `"a.b.c.d/len"` with
`len ≤ 32`.  `none` models an `AddrFormatError`. -/
def parseCIDR (s : String) : Option (Nat × Nat) :=
  match splitOnChar '/' s with
  | [a] => (parseIPv4 a).map (fun v => (v, 32))
  | [a, l] =>
    match parseIPv4 a, parseNatChars l.data with
    | some v, some len => if len ≤ 32 then some (v, len) else none
    | _, _ => none
  | _ => none

/-- Membership of address `ip` in the network `(net, len)`: the two
values agree on the top `len` bits. -/
def cidrContains (net len ip : Nat) : Bool :=
  ip / 2 ^ (32 - len) == net / 2 ^ (32 - len)

/-- Models `netaddr.IPAddress(ident)` on the two identity shapes: an
integer in `[0, 2^32)` is its own IPv4 value, a string is parsed as a
dotted quad; `none` models an `AddrFormatError`. -/
def identAddrVal : IdentVal → Option Nat
  | .uid n => if 0 ≤ n ∧ n < 2 ^ 32 then some n.toNat else none
  | .addr s => parseIPv4 s

/-- One loop iteration of `CommonThrottle.is_whitelisted`: does `ident`
match the whitelist entry?  An `int` entry matches by `==`; a `str`
entry matches when `all_matching_cidrs(ident, [entry]) != []`, with
`AddrFormatError`/`ValueError` swallowed (modelled by the `Option`
failures yielding `false`). -/
def entry_matches (ident : IdentVal) : WlEntry → Bool
  | .int n =>
    match ident with
    | .uid m => n == m
    | .addr _ => false
  | .str s =>
    match identAddrVal ident, parseCIDR s with
    | some ip, some (net, len) => cidrContains net len ip
    | _, _ => false

/-- Models `CommonThrottle.is_whitelisted`. -/
def is_whitelisted (wl : List WlEntry) (ident : IdentVal) : Bool :=
  wl.any (entry_matches ident)

/-- Models `CommonThrottle.parse_rate` on a string input: split on `/`,
parse the count, map the first letter of the period. The error cases
model the uncaught `ValueError` / `IndexError` / `KeyError`. -/
def ct_parse_rate (rate : String) : Except PyError Rate :=
  match splitOnChar '/' rate with
  | [num, period] =>
    match pyToInt num with
    | none => .error .valueError
    | some n =>
      match period.data with
      | [] => .error .indexError
      | c :: _ =>
        if c = 's' then .ok ⟨rate, n, 1⟩
        else if c = 'm' then .ok ⟨rate, n, 60⟩
        else if c = 'h' then .ok ⟨rate, n, 3600⟩
        else if c = 'd' then .ok ⟨rate, n, 86400⟩
        else .error .keyError
  | _ => .error .valueError

/-- Models `CommonThrottle.get_rates`. -/
def ct_get_rates (cfg : ThrottleConfig) (scope : String) : Except PyError (List Rate) :=
  match cfg.rates scope with
  | none =>
    .error (.improperlyConfigured ("No default throttle rate set for \"" ++ scope ++ "\" scope"))
  | some .nil => .ok []
  | some (.str s) => (ct_parse_rate s).map (fun r => [r])
  | some (.lst l) => l.mapM ct_parse_rate
  | some .other =>
    .error (.improperlyConfigured ("No valid throttle rate set for \"" ++ scope ++ "\" scope"))

/-- Models `CommonThrottle.get_scope`. -/
def ct_get_scope (req : Request) : String :=
  (if req.isAuthenticated then "user" else "anon") ++ "-" ++
    (if req.method ∈ ["POST", "PUT", "PATCH", "DELETE"] then "write" else "read")

/-- Models `CommonThrottle.get_ident`. -/
def ct_get_ident (req : Request) : IdentVal :=
  if req.isAuthenticated then .uid req.userId else .addr req.ip

/-- Python `%s` formatting of the identity: decimal for an int, the
string itself otherwise. -/
def identStr : IdentVal → String
  | .uid n => toString n
  | .addr s => s

/-- Models `CommonThrottle.get_cache_key`:
`"throtte_%(scope)s_%(rate)s_%(ident)s"`. -/
def ct_get_cache_key (ident : IdentVal) (scope rate : String) : String :=
  "throtte_" ++ scope ++ "_" ++ rate ++ "_" ++ identStr ident

/-- Models `CommonThrottle.wait_time(history, rate, now)`. -/
def ct_wait_time (history : List ℚ) (rate : Rate) (now : ℚ) : ℚ :=
  let remaining := remainingOf rate.duration history now
  let available : Int := rate.num - history.length + 1
  if available ≤ 0 then remaining
  else remaining / (available : ℚ)

/-- The per-tier data computed by the loop in
`CommonThrottle.allow_request`: for each rate, its cache key and its
pruned history. -/
def ct_tiers (store : Store) (ident : IdentVal) (scope : String) (now : ℚ)
    (rates : List Rate) : List (Rate × String × List ℚ) :=
  rates.map (fun r =>
    let key := ct_get_cache_key ident scope r.name
    (r, key, prune (store key) (now - (r.duration : ℚ))))

/-- The `waits` list of `CommonThrottle.allow_request`: the wait time of
every tier whose pruned history has reached its count. -/
def ct_waits (tiers : List (Rate × String × List ℚ)) (now : ℚ) : List ℚ :=
  (tiers.filter (fun t => decide ((t.2.2.length : Int) ≥ t.1.num))).map
    (fun t => ct_wait_time t.2.2 t.1 now)

/-- Models `CommonThrottle.allow_request`: scope and identity are
computed, the rates are looked up (raising on a missing scope), the
whitelist admits unconditionally, an empty rate list admits, and
otherwise every tier is pruned and tested; if any tier denies the
decision is `false` with `self._wait = max(waits)` and no write, else
`now` is inserted into every tier's history and written with
`ttl = rate_duration`. -/
def ct_allow_request (cfg : ThrottleConfig) (store : Store) (req : Request) (now : ℚ) :
    Except PyError (Bool × Option ℚ × List Write) :=
  match ct_get_rates cfg (ct_get_scope req) with
  | .error e => .error e
  | .ok rates =>
    if is_whitelisted cfg.whitelist (ct_get_ident req) then .ok (true, none, [])
    else if rates = [] then .ok (true, none, [])
    else
      let tiers := ct_tiers store (ct_get_ident req) (ct_get_scope req) now rates
      match (ct_waits tiers now).max? with
      | some w => .ok (false, some w, [])
      | none => .ok (true, none, tiers.map (fun t => ⟨t.2.1, now :: t.2.2, t.1.duration⟩))

/-! ## Helper lemmas -/

theorem foldlMax_spec (as : List ℚ) (a : ℚ) :
    (as.foldl max a = a ∨ as.foldl max a ∈ as) ∧ a ≤ as.foldl max a ∧
      ∀ v ∈ as, v ≤ as.foldl max a := by
  induction as generalizing a with
  | nil => simp
  | cons b bs ih =>
    obtain ⟨hmem, hle, hall⟩ := ih (max a b)
    rw [List.foldl_cons]
    refine ⟨?_, le_trans (le_max_left a b) hle, ?_⟩
    · rcases hmem with h | h
      · rcases max_choice a b with hc | hc
        · left; rw [h, hc]
        · right; rw [h, hc]; exact List.mem_cons_self b bs
      · right; exact List.mem_cons_of_mem b h
    · intro v hv
      rcases List.mem_cons.mp hv with rfl | hv
      · exact le_trans (le_max_right a v) hle
      · exact hall v hv

theorem max?_spec (l : List ℚ) (w : ℚ) (h : l.max? = some w) :
    w ∈ l ∧ ∀ v ∈ l, v ≤ w := by
  cases l with
  | nil => simp [List.max?] at h
  | cons a as =>
    have hw : w = as.foldl max a := by
      simpa [List.max?] using h.symm
    obtain ⟨hmem, hle, hall⟩ := foldlMax_spec as a
    subst hw
    refine ⟨?_, ?_⟩
    · rcases hmem with h' | h'
      · rw [h']; exact List.mem_cons_self a as
      · exact List.mem_cons_of_mem a h'
    · intro v hv
      rcases List.mem_cons.mp hv with rfl | hv
      · exact hle
      · exact hall v hv

theorem length_dropWhile_le {α : Type} (p : α → Bool) (l : List α) :
    (l.dropWhile p).length ≤ l.length := by
  induction l with
  | nil => simp
  | cons x xs ih =>
    rw [List.dropWhile_cons]
    by_cases h : p x = true
    · simp only [h, if_true]
      exact le_trans ih (Nat.le_succ _)
    · simp [h]

theorem dropWhile_replicate_of_neg {α : Type} (p : α → Bool) (a : α) (h : p a = false)
    (n : Nat) : (List.replicate n a).dropWhile p = List.replicate n a := by
  induction n with
  | zero => simp
  | succ k ih =>
    rw [List.replicate_succ, List.dropWhile_cons, h]
    simp

/-! ## Claim theorems -/

/-- C5: identity resolution in `BaseThrottle.get_ident`.  With a positive
proxy depth `n` and a forwarded header present, the result is the
whitespace-trimmed segment at position `len - min n len` of the
comma-split header; with depth `0` or an absent header the direct
address; with no depth configured, the forwarded header with all its
whitespace removed when it is present and non-empty, else the direct
address.  Concretely, depth `2` on `"1.1.1.1, 2.2.2.2, 3.3.3.3"`
resolves to `"2.2.2.2"`. -/
theorem c5_identity_resolution (ra x : String) (n : Nat) :
    bt_get_ident none ra (some n) = ra ∧
    bt_get_ident none ra none = ra ∧
    bt_get_ident (some x) ra (some n) =
      (if n = 0 then ra
       else pyStrip ((splitOnChar ',' x).getD
          ((splitOnChar ',' x).length - min n (splitOnChar ',' x).length) "")) ∧
    bt_get_ident (some x) ra none = (if x = "" then ra else stripAllWs x) ∧
    bt_get_ident (some "1.1.1.1, 2.2.2.2, 3.3.3.3") "9.9.9.9" (some 2) = "2.2.2.2" := by
  refine ⟨rfl, rfl, rfl, ?_, by decide⟩
  by_cases h : x = "" <;> simp [bt_get_ident, h]

/-- C3: the wait-time formulas and the single/multi-tier asymmetry.
`remaining` is the window length minus the age of the oldest remaining
entry (the whole window for an empty history), `available` is
`count - len + 1`; `SimpleRateThrottle.wait` returns `none` when
`available ≤ 0` and `remaining / available` otherwise, while
`CommonThrottle.wait_time` returns `remaining` itself when
`available ≤ 0` and the same quotient otherwise. -/
theorem c3_wait_formula_asymmetry (num : Int) (duration : Nat) (name : String)
    (history : List ℚ) (now : ℚ) :
    remainingOf duration history now =
      (match history.getLast? with
       | some t => (duration : ℚ) - (now - t)
       | none => (duration : ℚ)) ∧
    srt_wait num duration history now =
      (if num - history.length + 1 ≤ 0 then none
       else some (remainingOf duration history now / ((num - history.length + 1 : Int) : ℚ))) ∧
    ct_wait_time history ⟨name, num, duration⟩ now =
      (if num - history.length + 1 ≤ 0 then remainingOf duration history now
       else remainingOf duration history now / ((num - history.length + 1 : Int) : ℚ)) :=
  ⟨rfl, rfl, rfl⟩

/-- C7, counterexample: under rate `2/min` with stored timestamps
`[10, 0]`, the §4.4 wait estimate at `t = 15` is `(60 - 15)/1 = 45`
seconds, not `50`; and at `t = 61` the history prunes to `[10]`
(the entry at `t = 10` satisfies `10 > 61 - 60`), not to the empty
list. -/
theorem c7_counterexample :
    srt_wait 2 60 (prune [(10 : ℚ), 0] (15 - 60)) 15 = some 45 ∧
    ((45 : ℚ) ≠ 50) ∧
    prune [(10 : ℚ), 0] (61 - 60) = [10] ∧
    ([(10 : ℚ)] ≠ ([] : List ℚ)) := by
  refine ⟨?_, by norm_num, ?_, by simp⟩
  · norm_num [prune, srt_wait, remainingOf, List.dropWhile]
  · norm_num [prune, List.dropWhile]

/-- C7, amended: under rate `2/min` with stored timestamps at `t = 0`
and `t = 10` at key `K`, the request at `t = 15` is denied with wait
estimate `(60 - 15)/1 = 45` seconds, and the request at `t = 61` is
admitted with the history pruned to `[10]` (only the `t = 0` entry has
left the window) and `[61, 10]` written back with ttl `60`. -/
theorem c7_amended_scenario :
    srt_allow_request (some (2, 60)) (some "K")
      (fun k => if k = "K" then [10, 0] else []) 15 = (false, []) ∧
    srt_wait 2 60 (prune [(10 : ℚ), 0] (15 - 60)) 15 = some 45 ∧
    srt_allow_request (some (2, 60)) (some "K")
      (fun k => if k = "K" then [10, 0] else []) 61 = (true, [⟨"K", [61, 10], 60⟩]) := by
  refine ⟨?_, ?_, ?_⟩ <;>
    norm_num [srt_allow_request, prune, srt_wait, remainingOf, List.dropWhile]

/-- C6: in `CommonThrottle`, a composite scope absent from the
`THROTTLE_RATES` table raises `ImproperlyConfigured`, while a scope
explicitly configured as `None` or as an empty list admits the request
with no store write, for every store (so no store state can influence
the outcome). -/
theorem c6_scope_lookup (cfg : ThrottleConfig) (store : Store) (req : Request) (now : ℚ) :
    (cfg.rates (ct_get_scope req) = none →
      ct_allow_request cfg store req now = .error (.improperlyConfigured
        ("No default throttle rate set for \"" ++ ct_get_scope req ++ "\" scope"))) ∧
    (cfg.rates (ct_get_scope req) = some .nil →
      ct_allow_request cfg store req now = .ok (true, none, [])) ∧
    (cfg.rates (ct_get_scope req) = some (.lst []) →
      ct_allow_request cfg store req now = .ok (true, none, [])) := by
  refine ⟨fun h => ?_, fun h => ?_, fun h => ?_⟩
  · simp [ct_allow_request, ct_get_rates, h]
  · simp only [ct_allow_request, ct_get_rates, h]
    cases is_whitelisted cfg.whitelist (ct_get_ident req) <;> simp
  · simp only [ct_allow_request, ct_get_rates, h, List.mapM_nil, pure, Except.pure]
    cases is_whitelisted cfg.whitelist (ct_get_ident req) <;> simp

/-- C6 witness: with an unauthenticated GET request (composite scope
`anon-read`), a table that lacks the scope raises, and tables mapping it
to `None` or to `[]` admit without writing. -/
theorem c6_scope_lookup_witness :
    ct_allow_request ⟨fun _ => none, []⟩ emptyStore ⟨false, 0, "1.2.3.4", "GET"⟩ 0 =
      .error (.improperlyConfigured "No default throttle rate set for \"anon-read\" scope") ∧
    ct_allow_request ⟨fun _ => some .nil, []⟩ emptyStore ⟨false, 0, "1.2.3.4", "GET"⟩ 0 =
      .ok (true, none, []) ∧
    ct_allow_request ⟨fun _ => some (.lst []), []⟩ emptyStore ⟨false, 0, "1.2.3.4", "GET"⟩ 0 =
      .ok (true, none, []) :=
  ⟨(c6_scope_lookup ⟨fun _ => none, []⟩ emptyStore ⟨false, 0, "1.2.3.4", "GET"⟩ 0).1 rfl,
   (c6_scope_lookup ⟨fun _ => some .nil, []⟩ emptyStore ⟨false, 0, "1.2.3.4", "GET"⟩ 0).2.1 rfl,
   (c6_scope_lookup ⟨fun _ => some (.lst []), []⟩ emptyStore
      ⟨false, 0, "1.2.3.4", "GET"⟩ 0).2.2 rfl⟩

/-- C10 (implicit): `CommonThrottle.allow_request` calls `get_rates`
before `is_whitelisted`, so a missing composite scope raises
`ImproperlyConfigured` even for an identity that matches the
whitelist. -/
theorem c10_lookup_before_whitelist (cfg : ThrottleConfig) (store : Store) (req : Request)
    (now : ℚ) (hmiss : cfg.rates (ct_get_scope req) = none)
    (hwl : is_whitelisted cfg.whitelist (ct_get_ident req) = true) :
    ct_allow_request cfg store req now = .error (.improperlyConfigured
      ("No default throttle rate set for \"" ++ ct_get_scope req ++ "\" scope")) := by
  simp [ct_allow_request, ct_get_rates, hmiss]

/-- C10 witness: an identity inside a whitelisted CIDR still hits the
configuration error when its composite scope is missing from the
table. -/
theorem c10_lookup_before_whitelist_witness :
    ct_allow_request ⟨fun _ => none, [.str "0.0.0.0/0"]⟩ emptyStore
      ⟨false, 0, "1.2.3.4", "GET"⟩ 0 =
      .error (.improperlyConfigured "No default throttle rate set for \"anon-read\" scope") :=
  c10_lookup_before_whitelist ⟨fun _ => none, [.str "0.0.0.0/0"]⟩ emptyStore
    ⟨false, 0, "1.2.3.4", "GET"⟩ 0 rfl (by decide)

/-- C9, counterexample: the underscore-joined key template collides on
distinct `(scope, identity)` pairs — `("a_b", "c")` and `("a", "b_c")`
both produce the key `"throttle_a_b_c"`. -/
theorem c9_counterexample :
    srt_cache_key "a_b" "c" = srt_cache_key "a" "b_c" ∧
    (("a_b", "c") ≠ ("a", "b_c")) :=
  ⟨rfl, by decide⟩

theorem srt_allow_request_some (num : Int) (duration : Nat) (k : String) (store : Store)
    (now : ℚ) :
    srt_allow_request (some (num, duration)) (some k) store now =
      (if ((prune (store k) (now - (duration : ℚ))).length : Int) ≥ num then (false, [])
       else (true, [⟨k, now :: prune (store k) (now - (duration : ℚ)), duration⟩])) := rfl

theorem srt_request_eq (num : Int) (duration : Nat) (key : String) (store : Store) (now : ℚ) :
    srt_request num duration key store now =
      ((srt_allow_request (some (num, duration)) (some key) store now).1,
       applyWrites store (srt_allow_request (some (num, duration)) (some key) store now).2) :=
  rfl

theorem srt_burst_succ (num : Int) (w : Nat) (key : String) (now : ℚ) (k : Nat)
    (store : Store) :
    srt_burst num w key now (k + 1) store =
      ((srt_request num w key store now).1 ::
        (srt_burst num w key now k (srt_request num w key store now).2).1,
       (srt_burst num w key now k (srt_request num w key store now).2).2) := rfl

theorem prune_replicate (j : Nat) (now : ℚ) (w : Nat) (hw : 0 < w) :
    prune (List.replicate j now) (now - (w : ℚ)) = List.replicate j now := by
  have hwq : (0 : ℚ) < (w : ℚ) := by exact_mod_cast hw
  have hp : decide (now ≤ now - (w : ℚ)) = false := by
    simp only [decide_eq_false_iff_not, not_le]
    linarith
  unfold prune
  rw [List.reverse_replicate,
    dropWhile_replicate_of_neg (fun t => decide (t ≤ now - (w : ℚ))) now hp j,
    List.reverse_replicate]

theorem srt_burst_helper (c w : Nat) (key : String) (now : ℚ) (hw : 0 < w) :
    ∀ (k j : Nat) (store : Store), store key = List.replicate j now → j + k ≤ c →
      (srt_burst (c : Int) w key now k store).1 = List.replicate k true ∧
      (srt_burst (c : Int) w key now k store).2 key = List.replicate (j + k) now := by
  intro k
  induction k with
  | zero =>
    intro j store hst _
    exact ⟨rfl, by simpa using hst⟩
  | succ k ih =>
    intro j store hst hjk
    have hjc : j < c := by omega
    have hprune : prune (store key) (now - ((w : Nat) : ℚ)) = List.replicate j now := by
      rw [hst]; exact prune_replicate j now w hw
    have hcond : ¬ (((List.replicate j now).length : Int) ≥ ((c : Nat) : Int)) := by
      simp only [List.length_replicate]
      exact_mod_cast Nat.not_le.mpr hjc
    have hreq : srt_request (c : Int) w key store now =
        (true, applyWrites store [⟨key, now :: List.replicate j now, w⟩]) := by
      rw [srt_request_eq, srt_allow_request_some, hprune, if_neg hcond]
    have hst' : applyWrites store [⟨key, now :: List.replicate j now, w⟩] key =
        List.replicate (j + 1) now := by
      simp [applyWrites, List.replicate_succ]
    obtain ⟨h1, h2⟩ := ih (j + 1)
      (applyWrites store [⟨key, now :: List.replicate j now, w⟩]) hst' (by omega)
    rw [srt_burst_succ, hreq]
    refine ⟨?_, ?_⟩
    · show true :: _ = _
      rw [h1, List.replicate_succ]
    · show (srt_burst (c : Int) w key now k _).2 key = _
      rw [h2]
      congr 1
      omega

theorem srt_burst_split (n : Int) (w : Nat) (key : String) (now : ℚ) (a : Nat) :
    ∀ (b : Nat) (store : Store),
      srt_burst n w key now (a + b) store =
        ((srt_burst n w key now a store).1 ++
           (srt_burst n w key now b (srt_burst n w key now a store).2).1,
         (srt_burst n w key now b (srt_burst n w key now a store).2).2) := by
  induction a with
  | zero => intro b store; simp [srt_burst]
  | succ a ih =>
    intro b store
    have hab : a + 1 + b = (a + b) + 1 := by omega
    rw [hab]
    show ((srt_request n w key store now).1 ::
        (srt_burst n w key now (a + b) (srt_request n w key store now).2).1,
      (srt_burst n w key now (a + b) (srt_request n w key store now).2).2) = _
    rw [ih]
    rfl

/-- C2: single-tier sliding-window admission.  The evaluator prunes the
stored history from its tail while the last entry is `≤ now - w`; it
denies exactly when the pruned length has reached the count, writing
nothing, and otherwise admits, writing `now` prepended to the pruned
history with ttl `w`.  Consequently a burst of `c + 1` instantaneous
requests at one key admits the first `c` and denies the last. -/
theorem c2_single_tier_sliding_window (c w : Nat) (key : String) (store : Store) (now : ℚ)
    (hw : 0 < w) (hsorted : (store key).Sorted (· ≥ ·)) :
    prune (store key) (now - (w : ℚ)) =
      ((store key).reverse.dropWhile (fun t => decide (t ≤ now - (w : ℚ)))).reverse ∧
    (((prune (store key) (now - (w : ℚ))).length : Int) ≥ (c : Int) →
      srt_allow_request (some ((c : Int), w)) (some key) store now = (false, [])) ∧
    (((prune (store key) (now - (w : ℚ))).length : Int) < (c : Int) →
      srt_allow_request (some ((c : Int), w)) (some key) store now =
        (true, [⟨key, now :: prune (store key) (now - (w : ℚ)), w⟩])) ∧
    (srt_burst (c : Int) w key now (c + 1) emptyStore).1 =
      List.replicate c true ++ [false] := by
  refine ⟨rfl, fun hge => ?_, fun hlt => ?_, ?_⟩
  · rw [srt_allow_request_some, if_pos hge]
  · rw [srt_allow_request_some, if_neg (not_le.mpr hlt)]
  · rw [srt_burst_split]
    obtain ⟨h1, h2⟩ :=
      srt_burst_helper c w key now hw c 0 emptyStore (by simp [emptyStore]) (by omega)
    rw [h1]
    have h2' : (srt_burst (c : Int) w key now c emptyStore).2 key = List.replicate c now := by
      simpa using h2
    have hdeny : srt_request (c : Int) w key ((srt_burst (c : Int) w key now c emptyStore).2)
        now = (false, applyWrites ((srt_burst (c : Int) w key now c emptyStore).2) []) := by
      rw [srt_request_eq, srt_allow_request_some, h2', prune_replicate c now w hw,
        if_pos (by simp)]
    have hb1 : (srt_burst (c : Int) w key now 1
        ((srt_burst (c : Int) w key now c emptyStore).2)).1 = [false] := by
      rw [srt_burst_succ, hdeny]
      rfl
    rw [hb1]

/-- C2 witness: under rate `(2, 60)` three instantaneous requests at one
key admit twice then deny. -/
theorem c2_single_tier_sliding_window_witness :
    (srt_burst (2 : Int) 60 "K" 0 3 emptyStore).1 = [true, true, false] := by
  have h := (c2_single_tier_sliding_window 2 60 "K" emptyStore 0 (by norm_num)
    (by simp [emptyStore])).2.2.2
  simpa using h

/-- C8, counterexample: the history `[50, 0]` is saturated for the rate
`(1, 60)` and its oldest entry `0` satisfies `61 - 0 > 60`, yet the
request at `t = 61` is still denied — pruning only removes the expired
`t = 0` entry, and the remaining `[50]` still fills the single slot. -/
theorem c8_counterexample :
    (([(50 : ℚ), 0].length : Int) ≥ 1) ∧
    ((61 : ℚ) - 0 > 60) ∧
    (srt_allow_request (some (1, 60)) (some "K")
      (fun k => if k = "K" then [50, 0] else []) 61).1 = false := by
  refine ⟨by norm_num, by norm_num, ?_⟩
  norm_num [srt_allow_request, prune, List.dropWhile]

/-- C8, amended: for a fixed history whose pruned length equals the
count exactly (one available slot), both the single-tier wait and the
multi-tier per-tier wait strictly decrease as `now` advances, and as
soon as `now - oldestEntry > w` the request is admitted.  (For histories
strictly longer than the count the admission part fails, as the
counterexample shows.) -/
theorem c8_amended_monotonic (num : Int) (w : Nat) (name : String) (h : List ℚ)
    (tlast : ℚ) (now now' : ℚ) (hlast : h.getLast? = some tlast)
    (hlen : (h.length : Int) = num) (hlt : now < now') :
    srt_wait num w h now = some ((w : ℚ) - (now - tlast)) ∧
    srt_wait num w h now' = some ((w : ℚ) - (now' - tlast)) ∧
    ((w : ℚ) - (now' - tlast)) < ((w : ℚ) - (now - tlast)) ∧
    ct_wait_time h ⟨name, num, w⟩ now' < ct_wait_time h ⟨name, num, w⟩ now ∧
    ∀ (now2 : ℚ) (store : Store) (key : String), store key = h →
      (w : ℚ) < now2 - tlast →
      (srt_allow_request (some (num, w)) (some key) store now2).1 = true := by
  have hav : num - (h.length : Int) + 1 = 1 := by omega
  have hrem : ∀ t : ℚ, remainingOf w h t = (w : ℚ) - (t - tlast) := by
    intro t
    unfold remainingOf
    rw [hlast]
  have hwait : ∀ t : ℚ, srt_wait num w h t = some ((w : ℚ) - (t - tlast)) := by
    intro t
    unfold srt_wait
    rw [hav, if_neg (by norm_num), hrem]
    norm_num
  have hwt : ∀ t : ℚ, ct_wait_time h ⟨name, num, w⟩ t = (w : ℚ) - (t - tlast) := by
    intro t
    unfold ct_wait_time
    simp only [hav, hrem]
    rw [if_neg (by norm_num)]
    norm_num
  refine ⟨hwait now, hwait now', by linarith, ?_, ?_⟩
  · rw [hwt now, hwt now']
    linarith
  · intro now2 store key hst hgt
    have hne : h ≠ [] := by
      intro h0
      rw [h0] at hlast
      simp at hlast
    have hdecomp : h.dropLast ++ [tlast] = h := by
      have := List.dropLast_append_getLast hne
      rwa [show h.getLast hne = tlast by
        have h' := List.getLast?_eq_getLast h hne
        rw [h'] at hlast
        exact (Option.some_injective _ hlast.symm).symm] at this
    have hrev : h.reverse = tlast :: h.dropLast.reverse := by
      conv_lhs => rw [← hdecomp]
      simp
    have hplen : (prune h (now2 - (w : ℚ))).length ≤ h.dropLast.length := by
      unfold prune
      rw [hrev, List.length_reverse, List.dropWhile_cons,
        if_pos (by simp only [decide_eq_true_eq]; linarith)]
      calc (List.dropWhile (fun t => decide (t ≤ now2 - (w : ℚ)))
              h.dropLast.reverse).length
          ≤ h.dropLast.reverse.length := length_dropWhile_le _ _
        _ = h.dropLast.length := List.length_reverse _
    have hlenlt : ((prune h (now2 - (w : ℚ))).length : Int) < num := by
      have hd : h.dropLast.length = h.length - 1 := List.length_dropLast h
      have hpos : 1 ≤ h.length := by
        cases h with
        | nil => exact absurd rfl hne
        | cons a as => simp
      omega
    rw [srt_allow_request_some, hst, if_neg (not_le.mpr hlenlt)]

/-- C8 witness: with history `[10, 0]` and rate `(2, 60)` the wait
strictly decreases from `t = 15` to `t = 20`, and a request at
`t = 100 > 0 + 60` is admitted. -/
theorem c8_amended_monotonic_witness :
    ct_wait_time [(10 : ℚ), 0] ⟨"2/min", 2, 60⟩ 20 <
      ct_wait_time [(10 : ℚ), 0] ⟨"2/min", 2, 60⟩ 15 ∧
    (srt_allow_request (some (2, 60)) (some "K")
      (fun k => if k = "K" then [(10 : ℚ), 0] else []) 100).1 = true := by
  have h := c8_amended_monotonic 2 60 "2/min" [(10 : ℚ), 0] 0 15 20 rfl (by norm_num)
    (by norm_num)
  exact ⟨h.2.2.2.1, h.2.2.2.2 100 _ "K" (by simp) (by norm_num)⟩

theorem chunk_underscore_inj (a : List Char) :
    '_' ∉ a → ∀ (b : List Char), '_' ∉ b → ∀ (x y : List Char),
      a ++ '_' :: x = b ++ '_' :: y → a = b ∧ x = y := by
  induction a with
  | nil =>
    intro _ b hb x y hxy
    cases b with
    | nil => simpa using hxy
    | cons d b' =>
      simp only [List.nil_append, List.cons_append, List.cons.injEq] at hxy
      exact absurd (hxy.1 ▸ List.mem_cons_self d b') hb
  | cons c a' ih =>
    intro ha b hb x y hxy
    cases b with
    | nil =>
      simp only [List.cons_append, List.nil_append, List.cons.injEq] at hxy
      exact absurd (hxy.1 ▸ List.mem_cons_self c a') ha
    | cons d b' =>
      simp only [List.cons_append, List.cons.injEq] at hxy
      obtain ⟨rfl, htail⟩ := hxy
      have ha' : '_' ∉ a' := fun hm => ha (List.mem_cons_of_mem _ hm)
      have hb' : '_' ∉ b' := fun hm => hb (List.mem_cons_of_mem _ hm)
      obtain ⟨rfl, hxy'⟩ := ih ha' b' hb' x y htail
      exact ⟨rfl, hxy'⟩

theorem em_int (ident : IdentVal) (n : Int) :
    entry_matches ident (.int n) =
      (match ident with
       | .uid m => n == m
       | .addr _ => false) := rfl

theorem em_str (ident : IdentVal) (s : String) :
    entry_matches ident (.str s) =
      (match identAddrVal ident, parseCIDR s with
       | some ip, some (net, len) => cidrContains net len ip
       | _, _ => false) := rfl

theorem key_data (s i : String) :
    (srt_cache_key s i).data = "throttle_".data ++ (s.data ++ '_' :: i.data) := by
  show ("throttle_" ++ s ++ "_" ++ i).data = _
  rw [String.data_append, String.data_append, String.data_append,
    show "_".data = ['_'] from rfl]
  simp [List.append_assoc]

theorem ct_key_data (id : IdentVal) (s r : String) :
    (ct_get_cache_key id s r).data =
      "throtte_".data ++ (s.data ++ '_' :: (r.data ++ '_' :: (identStr id).data)) := by
  show ("throtte_" ++ s ++ "_" ++ r ++ "_" ++ identStr id).data = _
  rw [String.data_append, String.data_append, String.data_append, String.data_append,
    String.data_append, show "_".data = ['_'] from rfl]
  simp [List.append_assoc]

/-- C9, amended: the key builders are deterministic functions of their
inputs, and the keys are collision-free across distinct inputs provided
the scope (and, for the multi-tier key, the tier name) contain no
underscore — the template's separator; the identity, being the final
component, is unconstrained, and two identities collide exactly when
their `%s`-formatted strings coincide.  (Without that proviso the
template collides, as the counterexample shows.) -/
theorem c9_amended_key_injectivity (s₁ i₁ s₂ i₂ r₁ r₂ : String) (id₁ id₂ : IdentVal)
    (hs₁ : '_' ∉ s₁.data) (hs₂ : '_' ∉ s₂.data)
    (hr₁ : '_' ∉ r₁.data) (hr₂ : '_' ∉ r₂.data) :
    (srt_cache_key s₁ i₁ = srt_cache_key s₂ i₂ ↔ (s₁ = s₂ ∧ i₁ = i₂)) ∧
    (ct_get_cache_key id₁ s₁ r₁ = ct_get_cache_key id₂ s₂ r₂ ↔
      (s₁ = s₂ ∧ r₁ = r₂ ∧ identStr id₁ = identStr id₂)) := by
  constructor
  · constructor
    · intro hk
      have hd := congrArg String.data hk
      rw [key_data, key_data] at hd
      obtain ⟨hs, hi⟩ := chunk_underscore_inj s₁.data hs₁ s₂.data hs₂ i₁.data i₂.data
        (List.append_cancel_left hd)
      exact ⟨String.ext hs, String.ext hi⟩
    · rintro ⟨rfl, rfl⟩
      rfl
  · constructor
    · intro hk
      have hd := congrArg String.data hk
      rw [ct_key_data, ct_key_data] at hd
      obtain ⟨hs, hrest⟩ := chunk_underscore_inj s₁.data hs₁ s₂.data hs₂ _ _
        (List.append_cancel_left hd)
      obtain ⟨hr, hid⟩ := chunk_underscore_inj r₁.data hr₁ r₂.data hr₂ _ _ hrest
      exact ⟨String.ext hs, String.ext hr, String.ext hid⟩
    · rintro ⟨h1, h2, h3⟩
      unfold ct_get_cache_key
      rw [h1, h2, h3]

/-- C9 witness: distinct scopes give distinct single-tier keys, and
distinct tier names give distinct multi-tier keys, for underscore-free
components. -/
theorem c9_amended_key_injectivity_witness :
    srt_cache_key "anon" "1.2.3.4" ≠ srt_cache_key "user" "1.2.3.4" ∧
    ct_get_cache_key (.addr "1.2.3.4") "anon-read" "2/min" ≠
      ct_get_cache_key (.addr "1.2.3.4") "anon-read" "5/day" := by
  constructor
  · intro hk
    have h := (c9_amended_key_injectivity "anon" "1.2.3.4" "user" "1.2.3.4" "" ""
      (.addr "") (.addr "") (by decide) (by decide) (by decide) (by decide)).1.mp hk
    exact absurd h.1 (by decide)
  · intro hk
    have h := (c9_amended_key_injectivity "anon-read" "" "anon-read" "" "2/min" "5/day"
      (.addr "1.2.3.4") (.addr "1.2.3.4") (by decide) (by decide) (by decide)
      (by decide)).2.mp hk
    exact absurd h.2.1 (by decide)

/-- C1: multi-tier all-or-nothing atomicity.  With a configured,
non-empty rate list and a non-whitelisted identity: if any tier's pruned
history has reached its count, the decision is deny, the reported wait
is the maximum of the denying tiers' wait times, and nothing is written
to the store; if every tier is below its count, `now` is prepended to
every tier's pruned history and written back with ttl equal to that
tier's window. -/
theorem c1_all_or_nothing (cfg : ThrottleConfig) (store : Store) (req : Request) (now : ℚ)
    (rates : List Rate)
    (hrates : ct_get_rates cfg (ct_get_scope req) = .ok rates)
    (hne : rates ≠ [])
    (hwl : is_whitelisted cfg.whitelist (ct_get_ident req) = false) :
    ((∃ t ∈ ct_tiers store (ct_get_ident req) (ct_get_scope req) now rates,
        ((t.2.2.length : Int) ≥ t.1.num)) →
      ∃ wmax, ct_allow_request cfg store req now = .ok (false, some wmax, []) ∧
        wmax ∈ ct_waits (ct_tiers store (ct_get_ident req) (ct_get_scope req) now rates) now ∧
        ∀ v ∈ ct_waits (ct_tiers store (ct_get_ident req) (ct_get_scope req) now rates) now,
          v ≤ wmax) ∧
    ((∀ t ∈ ct_tiers store (ct_get_ident req) (ct_get_scope req) now rates,
        ((t.2.2.length : Int) < t.1.num)) →
      ct_allow_request cfg store req now = .ok (true, none,
        (ct_tiers store (ct_get_ident req) (ct_get_scope req) now rates).map
          (fun t => ⟨t.2.1, now :: t.2.2, t.1.duration⟩))) := by
  have hred : ct_allow_request cfg store req now =
      (match (ct_waits (ct_tiers store (ct_get_ident req) (ct_get_scope req) now rates)
          now).max? with
       | some w => .ok (false, some w, [])
       | none => .ok (true, none,
           (ct_tiers store (ct_get_ident req) (ct_get_scope req) now rates).map
             (fun t => ⟨t.2.1, now :: t.2.2, t.1.duration⟩))) := by
    simp only [ct_allow_request, hrates, hwl, Bool.false_eq_true, if_false, hne, ite_false]
  constructor
  · rintro ⟨t, htmem, htden⟩
    have htfil : t ∈ (ct_tiers store (ct_get_ident req) (ct_get_scope req) now rates).filter
        (fun t => decide ((t.2.2.length : Int) ≥ t.1.num)) :=
      List.mem_filter.mpr ⟨htmem, by simpa using htden⟩
    have hwne : ct_waits (ct_tiers store (ct_get_ident req) (ct_get_scope req) now rates)
        now ≠ [] := by
      intro h0
      unfold ct_waits at h0
      rw [List.map_eq_nil_iff] at h0
      rw [h0] at htfil
      exact absurd htfil (List.not_mem_nil t)
    cases hmax : (ct_waits (ct_tiers store (ct_get_ident req) (ct_get_scope req) now rates)
        now).max? with
    | none => exact absurd (List.max?_eq_none_iff.mp hmax) hwne
    | some w =>
      obtain ⟨hmem, hub⟩ := max?_spec _ w hmax
      refine ⟨w, ?_, hmem, hub⟩
      rw [hred, hmax]
  · intro hall
    have hfil : (ct_tiers store (ct_get_ident req) (ct_get_scope req) now rates).filter
        (fun t => decide ((t.2.2.length : Int) ≥ t.1.num)) = [] := by
      rw [List.filter_eq_nil_iff]
      intro a ha
      simpa using not_le.mpr (hall a ha)
    have hwnil : ct_waits (ct_tiers store (ct_get_ident req) (ct_get_scope req) now rates)
        now = [] := by
      unfold ct_waits
      rw [hfil]
      rfl
    rw [hred, hwnil]
    rfl

/-- C1 witness: two tiers for scope `anon-read` (`2/min` admits on an
empty history, `1/day` denies on history `[0]` at `t = 10`): the
request is denied with the denying tier's wait and no store write. -/
theorem c1_all_or_nothing_witness :
    ct_allow_request
      ⟨fun s => if s = "anon-read" then some (.lst ["2/min", "1/day"]) else none, []⟩
      (fun k => if k = "throtte_anon-read_1/day_1.2.3.4" then [(0 : ℚ)] else [])
      ⟨false, 0, "1.2.3.4", "GET"⟩ 10 = .ok (false, some 86390, []) := by
  have hident : ct_get_ident ⟨false, 0, "1.2.3.4", "GET"⟩ = .addr "1.2.3.4" := rfl
  have hscope : ct_get_scope ⟨false, 0, "1.2.3.4", "GET"⟩ = "anon-read" := rfl
  have hk1 : ct_get_cache_key (.addr "1.2.3.4") "anon-read" "2/min" =
      "throtte_anon-read_2/min_1.2.3.4" := rfl
  have hk2 : ct_get_cache_key (.addr "1.2.3.4") "anon-read" "1/day" =
      "throtte_anon-read_1/day_1.2.3.4" := rfl
  have htiers : ct_tiers
      (fun k => if k = "throtte_anon-read_1/day_1.2.3.4" then [(0 : ℚ)] else [])
      (.addr "1.2.3.4") "anon-read" 10 [⟨"2/min", 2, 60⟩, ⟨"1/day", 1, 86400⟩] =
      [(⟨"2/min", 2, 60⟩, "throtte_anon-read_2/min_1.2.3.4", ([] : List ℚ)),
       (⟨"1/day", 1, 86400⟩, "throtte_anon-read_1/day_1.2.3.4", [(0 : ℚ)])] := by
    simp only [ct_tiers, List.map_cons, List.map_nil, hk1, hk2]
    norm_num [prune, List.dropWhile]
  have hwaits : ct_waits
      [(⟨"2/min", 2, 60⟩, "throtte_anon-read_2/min_1.2.3.4", ([] : List ℚ)),
       (⟨"1/day", 1, 86400⟩, "throtte_anon-read_1/day_1.2.3.4", [(0 : ℚ)])] 10 =
      [86390] := by
    norm_num [ct_waits, List.filter, ct_wait_time, remainingOf]
  obtain ⟨wmax, heq, hmem, -⟩ :=
    (c1_all_or_nothing
      ⟨fun s => if s = "anon-read" then some (.lst ["2/min", "1/day"]) else none, []⟩
      (fun k => if k = "throtte_anon-read_1/day_1.2.3.4" then [(0 : ℚ)] else [])
      ⟨false, 0, "1.2.3.4", "GET"⟩ 10 [⟨"2/min", 2, 60⟩, ⟨"1/day", 1, 86400⟩]
      rfl (by decide) rfl).1
      (by
        rw [hident, hscope, htiers]
        refine ⟨(⟨"1/day", 1, 86400⟩, "throtte_anon-read_1/day_1.2.3.4", [(0 : ℚ)]),
          by simp, by norm_num⟩)
  rw [hident, hscope, htiers, hwaits] at hmem
  rw [List.mem_singleton.mp hmem] at heq
  exact heq

/-- C4: whitelist matching and bypass.  An `int` entry matches exactly
the equal integer identity; a string entry parsed as an address or CIDR
matches exactly the identities whose address value lies in the network
(a bare address string is a `/32`, so it matches by value equality); a
string entry that fails to parse never matches; an identity that the
address library cannot interpret never matches a string entry; and a
whitelisted identity under a configured scope is admitted with no store
write, whatever the store holds. -/
theorem c4_whitelist_matching_and_bypass :
    (∀ (n : Int) (ident : IdentVal),
      entry_matches ident (.int n) = true ↔ ident = .uid n) ∧
    (∀ (s a : String) (v u : Nat), parseIPv4 s = some v → parseCIDR a = some (u, 32) →
      (entry_matches (.addr s) (.str a) = true ↔ v = u)) ∧
    (∀ (s cw : String) (v net len : Nat), parseIPv4 s = some v →
      parseCIDR cw = some (net, len) →
      (entry_matches (.addr s) (.str cw) = true ↔ cidrContains net len v = true)) ∧
    (∀ (cw : String) (ident : IdentVal), parseCIDR cw = none →
      entry_matches ident (.str cw) = false) ∧
    (∀ (cw : String) (ident : IdentVal), identAddrVal ident = none →
      entry_matches ident (.str cw) = false) ∧
    (∀ (cfg : ThrottleConfig) (store : Store) (req : Request) (now : ℚ) (rates : List Rate),
      ct_get_rates cfg (ct_get_scope req) = .ok rates →
      is_whitelisted cfg.whitelist (ct_get_ident req) = true →
      ct_allow_request cfg store req now = .ok (true, none, [])) := by
  refine ⟨?_, ?_, ?_, ?_, ?_, ?_⟩
  · intro n ident
    cases ident with
    | uid m =>
      rw [em_int]
      simp only [beq_iff_eq, IdentVal.uid.injEq]
      exact eq_comm
    | addr s =>
      rw [em_int]
      simp
  · intro s a v u hv hu
    rw [em_str]
    simp only [identAddrVal, hv, hu]
    simp [cidrContains]
  · intro s cw v net len hv hc
    rw [em_str]
    simp only [identAddrVal, hv, hc]
  · intro cw ident hc
    rw [em_str, hc]
    cases identAddrVal ident <;> rfl
  · intro cw ident hi
    rw [em_str, hi]
  · intro cfg store req now rates hrates hwl
    simp only [ct_allow_request, hrates, hwl, if_true]

/-- C4 witness: the address `10.1.2.3` matches the CIDR entry
`10.0.0.0/8` and is admitted without a write even though the single
configured rate `1/day` is exhausted at every key. -/
theorem c4_whitelist_matching_and_bypass_witness :
    entry_matches (.addr "10.1.2.3") (.str "10.0.0.0/8") = true ∧
    ct_allow_request ⟨fun _ => some (.str "1/day"), [.str "10.0.0.0/8"]⟩
      (fun _ => [(0 : ℚ)]) ⟨false, 0, "10.1.2.3", "GET"⟩ 10 = .ok (true, none, []) := by
  constructor
  · exact (c4_whitelist_matching_and_bypass.2.2.1 "10.1.2.3" "10.0.0.0/8" 167838211
      167772160 8 (by decide) (by decide)).mpr (by decide)
  · exact c4_whitelist_matching_and_bypass.2.2.2.2.2
      ⟨fun _ => some (.str "1/day"), [.str "10.0.0.0/8"]⟩ (fun _ => [(0 : ℚ)])
      ⟨false, 0, "10.1.2.3", "GET"⟩ 10 [⟨"1/day", 1, 86400⟩] rfl (by decide)

